import Mathlib

/-!
Shallow embedding of
`googlecloudsdk/command_lib/storage/streaming_upload_file_wrapper.py`
(`StreamingUploadFileWrapper`): a wrapper that supports limited seeking
within a non-seekable stream by buffering a bounded trailing window of
previously read data.

Modelling conventions:
* bytes are `Nat`s, byte strings are `List Nat`;
* Python's unbounded integers are `Int`; counters that the code only ever
  uses as non-negative still live in `Int` so that the arithmetic (including
  the possibility of negative intermediate values) matches the source;
* the underlying stream is a finite byte source that honours requested read
  sizes (returns `min n remaining` bytes for `read(n)`, everything for a
  negative argument), modelled as immutable content plus a consumed counter;
* Python runtime failures are modelled explicitly: referencing the
  loop-scoped `read_size` before any loop iteration assigned it
  (`UnboundLocalError`) and popping from an empty deque (`IndexError`)
  surface as `none` / `.crash` results.
-/

namespace StreamingUpload

/-- Python sequence index clamping for slice bounds: a negative index counts
from the end of the sequence, and both directions clamp into `[0, n]`. -/
def pyIdx (n : Nat) (i : Int) : Nat :=
  if i < 0 then ((n : Int) + i).toNat else min i.toNat n

/-- Python slice `data[a:b]` for integer bounds `a`, `b` (no step). -/
def pySlice (data : List Nat) (a b : Int) : List Nat :=
  (data.take (pyIdx data.length b)).drop (pyIdx data.length a)

/-- The wrapped underlying stream (`self._stream`): an opaque forward-only
byte source.  It honours requested sizes: `read n` yields the next
`min n remaining` bytes, and a negative size means read-to-end, matching the
`read(-1)` call in the source. -/
structure ByteStream where
  content : List Nat
  consumed : Nat
deriving DecidableEq

/-- `stream.read(n)`: returns the bytes delivered and the stream afterwards. -/
def ByteStream.read (s : ByteStream) (n : Int) : List Nat × ByteStream :=
  let rest := s.content.drop s.consumed
  let out := if n < 0 then rest else rest.take n.toNat
  (out, ⟨s.content, s.consumed + out.length⟩)

/-- The state of `StreamingUploadFileWrapper`: the wrapped stream, the deque
of buffered chunks (oldest first), and the counters from `__init__`. -/
structure Wrapper where
  stream : ByteStream
  buffer : List (List Nat)
  max_buffer_size : Int
  buffer_start : Int
  position : Int
  buffer_end : Int
deriving DecidableEq

/-- `StreamingUploadFileWrapper.__init__(stream, max_buffer_size)`. -/
def Wrapper.init (stream : ByteStream) (max_buffer_size : Int) : Wrapper :=
  { stream := stream
    buffer := []
    max_buffer_size := max_buffer_size
    buffer_start := 0
    position := 0
    buffer_end := 0 }

/-- `StreamingUploadFileWrapper.tell()`. -/
def Wrapper.tell (w : Wrapper) : Int := w.position

/-- `StreamingUploadFileWrapper.seekable()`. -/
def Wrapper.seekable (_ : Wrapper) : Bool := true

/-- The mutable locals of the `for data in self._buffer` loop inside
`_read_from_buffer`, threaded through the iteration.  `read_size` starts
out unassigned (`none`): the source assigns it only inside the
`if position_in_buffer + len(data) >= self._position` branch but reads it
unconditionally at the bottom of the loop body. -/
structure ScanState where
  acc : List Nat
  bytes_remaining : Int
  position_in_buffer : Int
  position : Int
  read_size : Option Int
deriving DecidableEq

/-- The `for data in self._buffer` loop of `_read_from_buffer`.  Returns
`none` when `self._position += read_size` runs with `read_size` still
unassigned, which in Python raises `UnboundLocalError`. -/
def scanBuffer : List (List Nat) → ScanState → Option ScanState
  | [], st => some st
  | data :: rest, st =>
    let st1 :=
      if st.position ≤ st.position_in_buffer + (data.length : Int) then
        let offset_from_position := st.position - st.position_in_buffer
        let bytes_to_read_this_block := (data.length : Int) - offset_from_position
        let rs := min bytes_to_read_this_block st.bytes_remaining
        { st with
          acc := st.acc ++ pySlice data offset_from_position (offset_from_position + rs)
          bytes_remaining := st.bytes_remaining - rs
          read_size := some rs }
      else st
    match st1.read_size with
    | none => none
    | some rs =>
      scanBuffer rest
        { st1 with
          position_in_buffer := st1.position_in_buffer + (data.length : Int)
          position := st1.position + rs }

/-- `StreamingUploadFileWrapper._read_from_buffer(amount)`.  Returns the
bytes served from the buffer and the wrapper with its cursor advanced, or
`none` on the `UnboundLocalError` described in `scanBuffer`. -/
def readFromBuffer (w : Wrapper) (amount : Int) : Option (List Nat × Wrapper) :=
  if w.position < w.buffer_end then
    match scanBuffer w.buffer
        { acc := []
          bytes_remaining := amount
          position_in_buffer := w.buffer_start
          position := w.position
          read_size := none } with
    | none => none
    | some st => some (st.acc, { w with position := st.position })
  else
    some ([], w)

/-- The `while self._buffer_end - self._buffer_start > self._max_buffer_size`
eviction loop of `_store_data`, acting on (buffer, buffer_start).  Returns
`none` for `popleft` on an empty deque (Python `IndexError`).  After the
source re-inserts the trailing portion of the popped chunk, the window size
equals `max_buffer_size` exactly, so the `while` condition is false and the
loop exits; the re-insert branch therefore returns directly. -/
def evictLoop : List (List Nat) → Int → Int → Int → Option (List (List Nat) × Int)
  | [], bs, be, msize =>
    if msize < be - bs then none else some ([], bs)
  | oldest :: rest, bs, be, msize =>
    if msize < be - bs then
      let bs1 : Int := bs + (oldest.length : Int)
      let refill : Int := msize - (be - bs1)
      if oldest ≠ [] ∧ 1 ≤ refill then
        some (pySlice oldest (-refill) (oldest.length : Int) :: rest, bs1 - refill)
      else
        evictLoop rest bs1 be msize
    else
      some (oldest :: rest, bs)

/-- `StreamingUploadFileWrapper._store_data(data)`. -/
def storeData (w : Wrapper) (data : List Nat) : Option Wrapper :=
  if data = [] then some w
  else
    let buffer := w.buffer ++ [data]
    let buffer_end := w.buffer_end + (data.length : Int)
    match evictLoop buffer w.buffer_start buffer_end w.max_buffer_size with
    | none => none
    | some p =>
      some { w with buffer := p.1, buffer_start := p.2, buffer_end := buffer_end }

/-- Outcome of `read`: the returned bytes and resulting state, or a Python
runtime error (`UnboundLocalError` / `IndexError`). -/
inductive ReadResult where
  | ok (data : List Nat) (w : Wrapper)
  | crash
deriving DecidableEq

/-- `StreamingUploadFileWrapper.read(size)`.  A negative `size` plays the
role of Python's `size=None or size < 0` read-to-end mode. -/
def Wrapper.read (w : Wrapper) (size : Int) : ReadResult :=
  let read_all_bytes := size < 0
  let bytes_remaining : Int := if read_all_bytes then w.max_buffer_size else size
  match readFromBuffer w bytes_remaining with
  | none => ReadResult.crash
  | some dw =>
    let data := dw.1
    let w1 := dw.2
    let bytes_remaining2 := bytes_remaining - (data.length : Int)
    let r :=
      if read_all_bytes then w1.stream.read (-1)
      else if bytes_remaining2 ≠ 0 then w1.stream.read bytes_remaining2
      else ([], w1.stream)
    let w2 : Wrapper :=
      { w1 with stream := r.2, position := w1.position + (r.1.length : Int) }
    match storeData w2 r.1 with
    | none => ReadResult.crash
    | some w3 => ReadResult.ok (data ++ r.1) w3

/-- The three causes collapsed into `errors.Error` by `seek`. -/
inductive SeekError where
  | bufferWindowExceeded
  | endOffsetTooLarge
  | invalidMode
deriving DecidableEq

/-- Outcome of `seek`: success, an `errors.Error` raised with the wrapper in
the state it had at the raise point, or a Python runtime error from a `read`
issued while draining. -/
inductive SeekResult where
  | ok (w : Wrapper)
  | err (e : SeekError) (w : Wrapper)
  | crash
deriving DecidableEq

/-- `os.SEEK_SET`. -/
def SEEK_SET : Int := 0

/-- `os.SEEK_CUR`. -/
def SEEK_CUR : Int := 1

/-- `os.SEEK_END`. -/
def SEEK_END : Int := 2

/-- The `while self.read(self._max_buffer_size): pass` drain loop of the
`SEEK_END` branch of `seek`.  The loop's only exits are a `read` that
returns no bytes or a Python runtime error; `fuel` bounds the iterations so
the definition is total, and the drain lemmas show the bound supplied by
`Wrapper.seek` is never reached on well-formed states. -/
def drainLoop : Nat → Wrapper → Option Wrapper
  | 0, _ => none
  | fuel + 1, w =>
    match w.read w.max_buffer_size with
    | ReadResult.crash => none
    | ReadResult.ok data w' => if data = [] then some w' else drainLoop fuel w'

/-- `StreamingUploadFileWrapper.seek(offset, whence)`. -/
def Wrapper.seek (w : Wrapper) (offset : Int) (whence : Int) : SeekResult :=
  if whence = SEEK_SET then
    if offset < w.buffer_start ∨ w.buffer_end < offset then
      SeekResult.err SeekError.bufferWindowExceeded w
    else
      SeekResult.ok { w with position := offset }
  else if whence = SEEK_END then
    if w.max_buffer_size < offset then
      SeekResult.err SeekError.endOffsetTooLarge w
    else
      match drainLoop (w.stream.content.length + (w.buffer_end - w.position).toNat + 2) w with
      | none => SeekResult.crash
      | some w2 => SeekResult.ok { w2 with position := w2.position - offset }
  else
    SeekResult.err SeekError.invalidMode w

/-- Total length in bytes of the buffered chunks, as an `Int`. -/
def sumLens (buf : List (List Nat)) : Int :=
  ((buf.map List.length).sum : Nat)

/-- Run a sequence of `read` calls, concatenating the returned bytes;
`none` if any call crashes. -/
def runReads (w : Wrapper) : List Int → Option (List Nat × Wrapper)
  | [] => some ([], w)
  | s :: rest =>
    match w.read s with
    | ReadResult.crash => none
    | ReadResult.ok d w' =>
      match runReads w' rest with
      | none => none
      | some p => some (d ++ p.1, p.2)

/-- `tell()` observed after a successful seek, if any. -/
def SeekResult.tellAfter : SeekResult → Option Int
  | SeekResult.ok w => some w.tell
  | _ => none

/-- Bytes consumed from the underlying stream after a successful seek. -/
def SeekResult.consumedAfter : SeekResult → Option Nat
  | SeekResult.ok w => some w.stream.consumed
  | _ => none

/-- States reachable from `w0` by completed operations: successful reads,
successful seeks, and seeks that raised `errors.Error` (the Python object
survives the exception in the state it had at the raise point). -/
inductive Reaches (w0 : Wrapper) : Wrapper → Prop
  | refl : Reaches w0 w0
  | read {w w' : Wrapper} {size : Int} {data : List Nat} :
      Reaches w0 w → w.read size = ReadResult.ok data w' → Reaches w0 w'
  | seekOk {w w' : Wrapper} {offset whence : Int} :
      Reaches w0 w → w.seek offset whence = SeekResult.ok w' → Reaches w0 w'
  | seekErr {w w' : Wrapper} {offset whence : Int} {e : SeekError} :
      Reaches w0 w → w.seek offset whence = SeekResult.err e w' → Reaches w0 w'

/-- Like `Reaches`, but every successful relative-to-end seek used a
non-negative offset. -/
inductive ReachesNN (w0 : Wrapper) : Wrapper → Prop
  | refl : ReachesNN w0 w0
  | read {w w' : Wrapper} {size : Int} {data : List Nat} :
      ReachesNN w0 w → w.read size = ReadResult.ok data w' → ReachesNN w0 w'
  | seekOk {w w' : Wrapper} {offset whence : Int} :
      ReachesNN w0 w → (whence = SEEK_END → 0 ≤ offset) →
      w.seek offset whence = SeekResult.ok w' → ReachesNN w0 w'
  | seekErr {w w' : Wrapper} {offset whence : Int} {e : SeekError} :
      ReachesNN w0 w → w.seek offset whence = SeekResult.err e w' → ReachesNN w0 w'

/-- Projection of a `runReads` result onto the concatenated output. -/
def readsOut (w : Wrapper) (sizes : List Int) : Option (List Nat) :=
  (runReads w sizes).map Prod.fst

/-- Projection of a `runReads` result onto the final wrapper state. -/
def readsFinal (w : Wrapper) (sizes : List Int) : Option Wrapper :=
  (runReads w sizes).map Prod.snd

/-- `tell()` of an optional wrapper state. -/
def tellOf : Option Wrapper → Option Int :=
  Option.map Wrapper.tell

/-- Bytes consumed from the underlying stream, as an `Int`, of an optional
wrapper state. -/
def consumedOf : Option Wrapper → Option Int :=
  Option.map (fun w => (w.stream.consumed : Int))

/-- The shape of every state produced from a fresh wrapper by `read` calls
alone (no backward seek active): the cursor sits at the end of the buffered
window, the window end equals the bytes consumed from the stream, the
buffered chunks account exactly for the window, and consumption never
exceeds the stream length. -/
def Forward (w : Wrapper) : Prop :=
  w.position = w.buffer_end ∧
  w.buffer_end = (w.stream.consumed : Int) ∧
  sumLens w.buffer = w.buffer_end - w.buffer_start ∧
  w.stream.consumed ≤ w.stream.content.length

/-! Concrete states used by the scenario theorems and witnesses.  They are
reached from freshly constructed wrappers by the operations shown in the
theorems below. -/

/-- The ten-byte stream `b"0123456789"` (ASCII codes). -/
def exContent : List Nat := [48, 49, 50, 51, 52, 53, 54, 55, 56, 57]

/-- State after `read(4)` on a fresh wrapper over `exContent`, max 4. -/
def exW1 : Wrapper := ⟨⟨exContent, 4⟩, [[48, 49, 50, 51]], 4, 0, 4, 4⟩

/-- State after a further `read(2)`. -/
def exW2 : Wrapper := ⟨⟨exContent, 6⟩, [[50, 51], [52, 53]], 4, 2, 6, 6⟩

/-- State after a further `seek(3)`. -/
def exW3 : Wrapper := ⟨⟨exContent, 6⟩, [[50, 51], [52, 53]], 4, 2, 3, 6⟩

/-- State after a further `read(2)`. -/
def exW4 : Wrapper := ⟨⟨exContent, 6⟩, [[50, 51], [52, 53]], 4, 2, 5, 6⟩

/-- The four-byte stream `b"0123"`. -/
def cContent : List Nat := [48, 49, 50, 51]

/-- State after `read(2); read(2)` on a fresh wrapper over `cContent`, max 4:
two buffered chunks, the first covering offsets `[0, 2)`. -/
def cW2 : Wrapper := ⟨⟨cContent, 4⟩, [[48, 49], [50, 51]], 4, 0, 4, 4⟩

/-- State after a further `seek(3)`: the cursor points strictly beyond the
end of the first buffered chunk. -/
def cW3 : Wrapper := ⟨⟨cContent, 4⟩, [[48, 49], [50, 51]], 4, 0, 3, 4⟩

/-- Result state of `seek(-1, SEEK_END)` on a fresh wrapper over the empty
stream with max 4. -/
def c7W : Wrapper := ⟨⟨[], 0⟩, [], 4, 0, 1, 0⟩

/-- A state whose stream is exhausted and whose cursor sits at the end of
the buffered window. -/
def c10W : Wrapper := ⟨⟨[48], 1⟩, [[48]], 4, 0, 1, 1⟩

end StreamingUpload

namespace StreamingUpload

theorem sumLens_nil : sumLens [] = 0 := rfl

theorem sumLens_cons (a : List Nat) (l : List (List Nat)) :
    sumLens (a :: l) = (a.length : Int) + sumLens l := by
  simp [sumLens]

theorem sumLens_append (l1 l2 : List (List Nat)) :
    sumLens (l1 ++ l2) = sumLens l1 + sumLens l2 := by
  simp [sumLens]

theorem sumLens_nonneg (l : List (List Nat)) : 0 ≤ sumLens l :=
  Int.natCast_nonneg _

/-- Length of the Python suffix slice `data[-r:]` used by the eviction
re-insert, for `1 ≤ r ≤ len(data)`. -/
theorem pySlice_last_length (data : List Nat) (r : Int) (h1 : 1 ≤ r)
    (h2 : r ≤ (data.length : Int)) :
    ((pySlice data (-r) (data.length : Int)).length : Int) = r := by
  unfold pySlice pyIdx
  rw [if_pos (by omega : -r < (0 : Int)),
      if_neg (by omega : ¬ ((data.length : Int) < 0))]
  simp only [Int.toNat_natCast, min_self, List.take_length, List.length_drop]
  omega

/-- Any normal exit of the eviction loop leaves the window within
`max_buffer_size`. -/
theorem evictLoop_window : ∀ (buf : List (List Nat)) (bs be m : Int)
    (buf2 : List (List Nat)) (bs2 : Int),
    evictLoop buf bs be m = some (buf2, bs2) → be - bs2 ≤ m := by
  intro buf
  induction buf with
  | nil =>
    intro bs be m buf2 bs2 h
    simp only [evictLoop] at h
    split at h
    · exact Option.noConfusion h
    · next hc =>
      injection h with h2
      injection h2 with hbuf hbs
      subst hbs
      omega
  | cons oldest rest ih =>
    intro bs be m buf2 bs2 h
    simp only [evictLoop] at h
    split at h
    · next hc =>
      split at h
      · next hpush =>
        injection h with h2
        injection h2 with hbuf hbs
        subst hbs
        omega
      · exact ih _ _ _ _ _ h
    · next hc =>
      injection h with h2
      injection h2 with hbuf hbs
      subst hbs
      omega

/-- On states whose chunks account exactly for the window, the eviction
loop cannot underflow the deque: it terminates normally and the surviving
chunks again account exactly for the (now bounded) window. -/
theorem evictLoop_ok : ∀ (buf : List (List Nat)) (bs be m : Int),
    sumLens buf = be - bs → 0 ≤ m →
    ∃ buf2 bs2, evictLoop buf bs be m = some (buf2, bs2) ∧
      sumLens buf2 = be - bs2 := by
  intro buf
  induction buf with
  | nil =>
    intro bs be m hsum hm
    rw [sumLens_nil] at hsum
    refine ⟨[], bs, ?_, by rw [sumLens_nil]; omega⟩
    simp only [evictLoop]
    rw [if_neg (by omega)]
  | cons oldest rest ih =>
    intro bs be m hsum hm
    rw [sumLens_cons] at hsum
    have hrest : sumLens rest = be - (bs + (oldest.length : Int)) := by omega
    by_cases hc : m < be - bs
    · by_cases hpush : oldest ≠ [] ∧ 1 ≤ m - (be - (bs + (oldest.length : Int)))
      · have hlen1 : 1 ≤ m - (be - (bs + (oldest.length : Int))) := hpush.2
        have hlen2 : m - (be - (bs + (oldest.length : Int))) ≤ (oldest.length : Int) := by
          omega
        refine ⟨pySlice oldest (-(m - (be - (bs + (oldest.length : Int)))))
            (oldest.length : Int) :: rest,
          bs + (oldest.length : Int) - (m - (be - (bs + (oldest.length : Int)))),
          ?_, ?_⟩
        · simp only [evictLoop]
          rw [if_pos hc, if_pos hpush]
        · rw [sumLens_cons, pySlice_last_length oldest _ hlen1 hlen2]
          omega
      · obtain ⟨buf2, bs2, hrec, hsum2⟩ :=
          ih (bs + (oldest.length : Int)) be m hrest hm
        refine ⟨buf2, bs2, ?_, hsum2⟩
        simp only [evictLoop]
        rw [if_pos hc, if_neg hpush]
        exact hrec
    · refine ⟨oldest :: rest, bs, ?_, by rw [sumLens_cons]; omega⟩
      simp only [evictLoop]
      rw [if_neg hc]

/-- `_store_data` keeps stream, cursor and configuration; on success it
either left the state untouched (empty append) or left the window within
`max_buffer_size`. -/
theorem storeData_props {w : Wrapper} {d : List Nat} {w3 : Wrapper}
    (h : storeData w d = some w3) :
    w3.stream = w.stream ∧ w3.position = w.position ∧
    w3.max_buffer_size = w.max_buffer_size ∧
    (w3 = w ∨ w3.buffer_end - w3.buffer_start ≤ w.max_buffer_size) := by
  simp only [storeData] at h
  split at h
  · injection h with h2
    subst h2
    exact ⟨rfl, rfl, rfl, Or.inl rfl⟩
  · split at h
    · exact Option.noConfusion h
    · next p heq =>
      injection h with h2
      subst h2
      refine ⟨rfl, rfl, rfl, Or.inr ?_⟩
      exact evictLoop_window _ _ _ _ p.1 p.2 heq

/-- A stream read never changes the stream's content. -/
theorem ByteStream.read_content (s : ByteStream) (n : Int) :
    ((s.read n).2).content = s.content := rfl

/-- `_read_from_buffer` only moves the cursor: stream, chunks, window
bounds and configuration are untouched. -/
theorem readFromBuffer_frame {w : Wrapper} {a : Int} {d : List Nat} {w1 : Wrapper}
    (h : readFromBuffer w a = some (d, w1)) :
    w1.stream = w.stream ∧ w1.buffer = w.buffer ∧
    w1.max_buffer_size = w.max_buffer_size ∧
    w1.buffer_start = w.buffer_start ∧ w1.buffer_end = w.buffer_end := by
  unfold readFromBuffer at h
  split at h
  · split at h
    · exact Option.noConfusion h
    · injection h with h2
      injection h2 with hd hw
      subst hw
      exact ⟨rfl, rfl, rfl, rfl, rfl⟩
  · injection h with h2
    injection h2 with hd hw
    subst hw
    exact ⟨rfl, rfl, rfl, rfl, rfl⟩

/-- The `_store_data` call at the end of `read`, applied to the
post-stream-read state: configuration is kept, the resulting stream is the
post-read stream, and a bounded window stays bounded. -/
theorem storeData_step {w1 : Wrapper} {str2 : ByteStream} {out : List Nat}
    {w3 : Wrapper} (hc : str2.content = w1.stream.content)
    (h : storeData
      { stream := str2, buffer := w1.buffer,
        max_buffer_size := w1.max_buffer_size,
        buffer_start := w1.buffer_start,
        position := w1.position + (out.length : Int),
        buffer_end := w1.buffer_end } out = some w3) :
    w3.max_buffer_size = w1.max_buffer_size ∧
    w3.stream.content = w1.stream.content ∧
    (w1.buffer_end - w1.buffer_start ≤ w1.max_buffer_size →
      w3.buffer_end - w3.buffer_start ≤ w3.max_buffer_size) := by
  obtain ⟨h1, h2, h3, h4⟩ := storeData_props h
  refine ⟨h3, by rw [h1]; exact hc, ?_⟩
  intro hw
  rcases h4 with h4 | h4
  · subst h4
    exact hw
  · rw [h3]
    exact h4

/-- A successful `read` keeps the configuration and stream content, and
keeps the window within `max_buffer_size` whenever it already was. -/
theorem read_ok_frame {w : Wrapper} {s : Int} {d : List Nat} {w' : Wrapper}
    (h : w.read s = ReadResult.ok d w') :
    w'.max_buffer_size = w.max_buffer_size ∧
    w'.stream.content = w.stream.content ∧
    (w.buffer_end - w.buffer_start ≤ w.max_buffer_size →
      w'.buffer_end - w'.buffer_start ≤ w'.max_buffer_size) := by
  simp only [Wrapper.read] at h
  cases hscan : readFromBuffer w (if s < 0 then w.max_buffer_size else s) with
  | none =>
    rw [hscan] at h
    exact ReadResult.noConfusion h
  | some dw =>
    obtain ⟨data, w1⟩ := dw
    obtain ⟨hs1, hb1, hm1, hbs1, hbe1⟩ := readFromBuffer_frame hscan
    rw [hscan] at h
    dsimp only at h
    split at h
    · exact ReadResult.noConfusion h
    · rename_i w3 heq
      injection h with hd hw
      subst hw
      have key : w3.max_buffer_size = w1.max_buffer_size ∧
          w3.stream.content = w1.stream.content ∧
          (w1.buffer_end - w1.buffer_start ≤ w1.max_buffer_size →
            w3.buffer_end - w3.buffer_start ≤ w3.max_buffer_size) := by
        split at heq
        · exact storeData_step (ByteStream.read_content w1.stream (-1)) heq
        · split at heq
          · exact storeData_step
              (ByteStream.read_content w1.stream (s - (data.length : Int))) heq
          · exact storeData_step rfl heq
      obtain ⟨hmax, hcon, hwin⟩ := key
      refine ⟨hmax.trans hm1, hcon.trans (by rw [hs1]), fun hbound => ?_⟩
      exact hwin (by rw [hbs1, hbe1, hm1]; exact hbound)

/-- The drain loop of the `SEEK_END` branch preserves what `read` does. -/
theorem drainLoop_frame : ∀ (fuel : Nat) (w w2 : Wrapper),
    drainLoop fuel w = some w2 →
    w2.max_buffer_size = w.max_buffer_size ∧
    w2.stream.content = w.stream.content ∧
    (w.buffer_end - w.buffer_start ≤ w.max_buffer_size →
      w2.buffer_end - w2.buffer_start ≤ w2.max_buffer_size) := by
  intro fuel
  induction fuel with
  | zero =>
    intro w w2 h
    exact Option.noConfusion h
  | succ fuel ih =>
    intro w w2 h
    simp only [drainLoop] at h
    cases hr : w.read w.max_buffer_size with
    | crash =>
      rw [hr] at h
      exact Option.noConfusion h
    | ok data w1 =>
      rw [hr] at h
      dsimp only at h
      obtain ⟨h1, h2, h3⟩ := read_ok_frame hr
      by_cases hd : data = []
      · rw [if_pos hd] at h
        injection h with hw
        subst hw
        exact ⟨h1, h2, h3⟩
      · rw [if_neg hd] at h
        obtain ⟨g1, g2, g3⟩ := ih w1 w2 h
        exact ⟨g1.trans h1, g2.trans h2, fun hb => g3 (h3 hb)⟩

/-- On an `errors.Error`, `seek` leaves the wrapper exactly as it was. -/
theorem seek_err_eq {w w' : Wrapper} {offset whence : Int} {e : SeekError}
    (h : w.seek offset whence = SeekResult.err e w') : w' = w := by
  unfold Wrapper.seek at h
  split at h
  · split at h
    · injection h with he hw
      exact hw.symm
    · exact SeekResult.noConfusion h
  · split at h
    · split at h
      · injection h with he hw
        exact hw.symm
      · split at h
        · exact SeekResult.noConfusion h
        · exact SeekResult.noConfusion h
    · injection h with he hw
      exact hw.symm

/-- A successful `seek` keeps the configuration and stream content, and
keeps the window within `max_buffer_size` whenever it already was. -/
theorem seek_ok_frame {w w' : Wrapper} {offset whence : Int}
    (h : w.seek offset whence = SeekResult.ok w') :
    w'.max_buffer_size = w.max_buffer_size ∧
    w'.stream.content = w.stream.content ∧
    (w.buffer_end - w.buffer_start ≤ w.max_buffer_size →
      w'.buffer_end - w'.buffer_start ≤ w'.max_buffer_size) := by
  unfold Wrapper.seek at h
  split at h
  · split at h
    · exact SeekResult.noConfusion h
    · injection h with hw
      subst hw
      exact ⟨rfl, rfl, fun hb => hb⟩
  · split at h
    · split at h
      · exact SeekResult.noConfusion h
      · split at h
        · exact SeekResult.noConfusion h
        · next w2 hdr =>
          injection h with hw
          subst hw
          obtain ⟨h1, h2, h3⟩ := drainLoop_frame _ _ _ hdr
          exact ⟨h1, h2, h3⟩
    · exact SeekResult.noConfusion h

/-- C2: along every sequence of completed `read`/`seek` operations from a
freshly constructed wrapper with non-negative `max_buffer_size`, the
buffered window never exceeds `max_buffer_size` — including when a newly
appended chunk is larger than `max_buffer_size` and eviction splits it. -/
theorem C2_window_within_max (stream0 : ByteStream) (msize : Int)
    (w : Wrapper) (hm : 0 ≤ msize)
    (hr : Reaches (Wrapper.init stream0 msize) w) :
    w.buffer_end - w.buffer_start ≤ msize := by
  suffices h : w.buffer_end - w.buffer_start ≤ msize ∧
      w.max_buffer_size = msize from h.1
  induction hr with
  | refl => exact ⟨by simpa [Wrapper.init] using hm, rfl⟩
  | read hpr hstep ih =>
    obtain ⟨hw, hmax⟩ := ih
    obtain ⟨h1, h2, h3⟩ := read_ok_frame hstep
    refine ⟨?_, h1.trans hmax⟩
    have hb := h3 (by rw [hmax]; exact hw)
    rwa [h1.trans hmax] at hb
  | seekOk hpr hstep ih =>
    obtain ⟨hw, hmax⟩ := ih
    obtain ⟨h1, h2, h3⟩ := seek_ok_frame hstep
    refine ⟨?_, h1.trans hmax⟩
    have hb := h3 (by rw [hmax]; exact hw)
    rwa [h1.trans hmax] at hb
  | seekErr hpr hstep ih =>
    rw [seek_err_eq hstep]
    exact ih

theorem C2_witness :
    (0 : Int) ≤ 4 ∧ exW2.buffer_end - exW2.buffer_start ≤ 4 :=
  ⟨by decide,
    C2_window_within_max ⟨exContent, 0⟩ 4 exW2 (by decide)
      (@Reaches.read (Wrapper.init ⟨exContent, 0⟩ 4) exW1 exW2 2 [52, 53]
        (@Reaches.read (Wrapper.init ⟨exContent, 0⟩ 4)
          (Wrapper.init ⟨exContent, 0⟩ 4) exW1 4 [48, 49, 50, 51]
          Reaches.refl (by decide))
        (by decide))⟩

/-- Splitting a take at an intermediate point, where the split point is the
length actually delivered by the first take. -/
theorem take_glue (l : List Nat) (t1 t2 : Nat) :
    l.take (t1 + t2) = l.take t1 ++ (l.drop (l.take t1).length).take t2 := by
  rcases le_or_lt t1 l.length with h | h
  · rw [List.length_take, min_eq_left h, List.take_add]
  · have h1 : l.take t1 = l := List.take_of_length_le h.le
    rw [h1, List.drop_length, List.take_nil, List.append_nil]
    exact List.take_of_length_le (by omega)

/-- For all-non-negative integer sizes, summing the `toNat`s equals the
`toNat` of the sum. -/
theorem toNat_sum_of_nonneg : ∀ (sizes : List Int), (∀ s ∈ sizes, 0 ≤ s) →
    ((sizes.map Int.toNat).sum : Nat) = sizes.sum.toNat := by
  intro sizes
  induction sizes with
  | nil => intro _; rfl
  | cons a l ih =>
    intro h
    have ha : 0 ≤ a := h a (List.mem_cons_self a l)
    have hl : 0 ≤ l.sum := by
      apply List.sum_nonneg
      intro x hx
      exact h x (List.mem_cons_of_mem a hx)
    rw [List.map_cons, List.sum_cons, List.sum_cons,
      ih (fun s hs => h s (List.mem_cons_of_mem a hs))]
    omega

/-- On states whose chunks account exactly for the window, `_store_data`
always succeeds, extends the window end by the appended length, and keeps
the exact-accounting property. -/
theorem storeData_ok_sum {w : Wrapper} (d : List Nat)
    (hsum : sumLens w.buffer = w.buffer_end - w.buffer_start)
    (hm : 0 ≤ w.max_buffer_size) :
    ∃ w3, storeData w d = some w3 ∧
      w3.stream = w.stream ∧ w3.position = w.position ∧
      w3.max_buffer_size = w.max_buffer_size ∧
      w3.buffer_end = w.buffer_end + (d.length : Int) ∧
      sumLens w3.buffer = w3.buffer_end - w3.buffer_start := by
  by_cases hd : d = []
  · subst hd
    exact ⟨w, by simp [storeData], rfl, rfl, rfl, by simp, hsum⟩
  · have hsum2 : sumLens (w.buffer ++ [d]) =
        (w.buffer_end + (d.length : Int)) - w.buffer_start := by
      rw [sumLens_append, sumLens_cons, sumLens_nil]
      omega
    obtain ⟨buf2, bs2, heq, hs2⟩ :=
      evictLoop_ok (w.buffer ++ [d]) w.buffer_start
        (w.buffer_end + (d.length : Int)) w.max_buffer_size hsum2 hm
    refine ⟨{ w with
                buffer := buf2
                buffer_start := bs2
                buffer_end := w.buffer_end + (d.length : Int) },
      ?_, rfl, rfl, rfl, rfl, hs2⟩
    simp only [storeData, if_neg hd]
    rw [heq]

/-- On a forward-mode state, a non-negative `read(size)` serves nothing
from the buffer and delivers the next `size` bytes of the stream (fewer at
end of stream), re-establishing the forward shape. -/
theorem read_forward {w : Wrapper} (s : Int) (hf : Forward w) (hs : 0 ≤ s)
    (hm : 0 ≤ w.max_buffer_size) :
    ∃ w', w.read s =
        ReadResult.ok ((w.stream.content.drop w.stream.consumed).take s.toNat) w' ∧
      Forward w' ∧ w'.stream.content = w.stream.content ∧
      w'.max_buffer_size = w.max_buffer_size ∧
      w'.stream.consumed = w.stream.consumed +
        ((w.stream.content.drop w.stream.consumed).take s.toNat).length := by
  obtain ⟨hpos, hbe, hsum, hcons⟩ := hf
  have hneg : ¬ s < 0 := not_lt.mpr hs
  have hnlt : ¬ w.position < w.buffer_end := by rw [hpos]; exact lt_irrefl _
  have hscan : readFromBuffer w s = some ([], w) := by
    unfold readFromBuffer
    rw [if_neg hnlt]
  by_cases hz : s = 0
  · subst hz
    refine ⟨w, ?_, ⟨hpos, hbe, hsum, hcons⟩, rfl, rfl, by simp⟩
    simp only [Wrapper.read, if_neg hneg, hscan, List.length_nil, Nat.cast_zero,
      sub_zero, Int.toNat_zero, List.take_zero, ne_eq, not_true_eq_false,
      if_false, ite_false, add_zero, List.append_nil]
    rfl
  · have hrd : w.stream.read s =
        ((w.stream.content.drop w.stream.consumed).take s.toNat,
          ⟨w.stream.content, w.stream.consumed +
            ((w.stream.content.drop w.stream.consumed).take s.toNat).length⟩) := by
      simp only [ByteStream.read, if_neg hneg]
    have hlen : ((w.stream.content.drop w.stream.consumed).take s.toNat).length ≤
        w.stream.content.length - w.stream.consumed := by
      simp only [List.length_take, List.length_drop]
      omega
    obtain ⟨w3, hst, hstr, hposn, hmax, hbe3, hsum3⟩ :=
      storeData_ok_sum (w :=
        { stream := ⟨w.stream.content, w.stream.consumed +
            ((w.stream.content.drop w.stream.consumed).take s.toNat).length⟩
          buffer := w.buffer
          max_buffer_size := w.max_buffer_size
          buffer_start := w.buffer_start
          position := w.position +
            (((w.stream.content.drop w.stream.consumed).take s.toNat).length : Int)
          buffer_end := w.buffer_end })
        ((w.stream.content.drop w.stream.consumed).take s.toNat) hsum hm
    have e1 : w3.position = w.position +
        (((w.stream.content.drop w.stream.consumed).take s.toNat).length : Int) := hposn
    have e2 : w3.buffer_end = w.buffer_end +
        (((w.stream.content.drop w.stream.consumed).take s.toNat).length : Int) := hbe3
    have e3 : w3.stream = ⟨w.stream.content, w.stream.consumed +
        ((w.stream.content.drop w.stream.consumed).take s.toNat).length⟩ := hstr
    refine ⟨w3, ?_, ⟨?_, ?_, hsum3, ?_⟩, ?_, hmax, ?_⟩
    · simp only [Wrapper.read, if_neg hneg, hscan, List.length_nil, Nat.cast_zero,
        sub_zero, ne_eq, hz, not_false_eq_true, if_true, ite_true, hrd,
        List.nil_append]
      rw [hst]
    · omega
    · rw [e2, e3, hbe]
      push_cast
      ring
    · rw [e3]
      simpa using by omega
    · rw [e3]
    · rw [e3]

/-- Folding `read_forward` over a list of non-negative sizes. -/
theorem runReads_forward : ∀ (sizes : List Int) (w : Wrapper), Forward w →
    (∀ s ∈ sizes, 0 ≤ s) → 0 ≤ w.max_buffer_size →
    ∃ out w', runReads w sizes = some (out, w') ∧ Forward w' ∧
      w'.stream.content = w.stream.content ∧
      w'.max_buffer_size = w.max_buffer_size ∧
      out = (w.stream.content.drop w.stream.consumed).take ((sizes.map Int.toNat).sum) ∧
      w'.stream.consumed = w.stream.consumed + out.length := by
  intro sizes
  induction sizes with
  | nil =>
    intro w hf _ _
    exact ⟨[], w, rfl, hf, rfl, rfl, by simp, by simp⟩
  | cons a l ih =>
    intro w hf hnn hm
    have ha : 0 ≤ a := hnn a (List.mem_cons_self a l)
    obtain ⟨w1, hred, hf1, hc1, hm1, hcons1⟩ := read_forward a hf ha hm
    obtain ⟨out2, w2, hrun, hf2, hc2, hm2, hout2, hcons2⟩ :=
      ih w1 hf1 (fun s hs => hnn s (List.mem_cons_of_mem a hs)) (hm1 ▸ hm)
    refine ⟨(w.stream.content.drop w.stream.consumed).take a.toNat ++ out2, w2,
      ?_, hf2, hc2.trans hc1, hm2.trans hm1, ?_, ?_⟩
    · simp only [runReads, hred, hrun]
    · rw [List.map_cons, List.sum_cons,
        take_glue (w.stream.content.drop w.stream.consumed) a.toNat ((l.map Int.toNat).sum)]
      congr 1
      rw [hout2, hc1, hcons1, List.drop_drop,
        Nat.add_comm w.stream.consumed
          (((w.stream.content.drop w.stream.consumed).take a.toNat).length)]
    · rw [hcons2, hcons1, List.length_append]
      omega

/-- C3: from a fresh wrapper, any sequence of non-negative `read` calls
with no intervening seek concatenates to exactly what a single underlying
read of the total requested length would deliver, and after the calls
`tell()` equals the cumulative bytes consumed from the underlying stream
(every prefix of the sequence is itself an instance, giving the per-call
statement). -/
theorem C3_sequential_reads (content : List Nat) (msize : Int)
    (sizes : List Int) (hm : 0 ≤ msize) (hs : ∀ s ∈ sizes, 0 ≤ s) :
    readsOut (Wrapper.init ⟨content, 0⟩ msize) sizes =
      some (((ByteStream.mk content 0).read sizes.sum).1) ∧
    tellOf (readsFinal (Wrapper.init ⟨content, 0⟩ msize) sizes) =
      consumedOf (readsFinal (Wrapper.init ⟨content, 0⟩ msize) sizes) := by
  have hf : Forward (Wrapper.init ⟨content, 0⟩ msize) :=
    ⟨rfl, rfl, rfl, Nat.zero_le _⟩
  have hsig : 0 ≤ sizes.sum := List.sum_nonneg hs
  obtain ⟨out, w', hrun, hf', hc', hm', hout, hcons⟩ :=
    runReads_forward sizes _ hf hs hm
  constructor
  · rw [readsOut, hrun]
    simp only [Option.map_some']
    rw [hout, toNat_sum_of_nonneg sizes hs]
    simp [ByteStream.read, Wrapper.init, not_lt.mpr hsig]
  · rw [readsFinal, hrun]
    simp only [Option.map_some', tellOf, consumedOf]
    exact congrArg some ((hf'.1).trans hf'.2.1)

theorem C3_witness :
    readsOut (Wrapper.init ⟨exContent, 0⟩ 4) [4, 2] =
      some (((ByteStream.mk exContent 0).read ([4, 2] : List Int).sum).1) ∧
    tellOf (readsFinal (Wrapper.init ⟨exContent, 0⟩ 4) [4, 2]) =
      consumedOf (readsFinal (Wrapper.init ⟨exContent, 0⟩ 4) [4, 2]) :=
  C3_sequential_reads exContent 4 [4, 2] (by decide) (by decide)

/-- The `SEEK_END` drain loop, run on a forward-mode state with a positive
`max_buffer_size` and enough fuel, terminates with the underlying stream
read to exhaustion and the cursor at the true end of stream. -/
theorem drain_forward : ∀ (fuel : Nat) (w : Wrapper), Forward w →
    1 ≤ w.max_buffer_size →
    w.stream.content.length - w.stream.consumed < fuel →
    ∃ w2, drainLoop fuel w = some w2 ∧ Forward w2 ∧
      w2.stream.content = w.stream.content ∧
      w2.max_buffer_size = w.max_buffer_size ∧
      w2.stream.consumed = w2.stream.content.length := by
  intro fuel
  induction fuel with
  | zero =>
    intro w _ _ hlt
    omega
  | succ fuel ih =>
    intro w hf hm hlt
    have hle : w.stream.consumed ≤ w.stream.content.length := hf.2.2.2
    obtain ⟨w1, hred, hf1, hc1, hm1, hcons1⟩ :=
      read_forward w.max_buffer_size hf (by omega) (by omega)
    by_cases hend : w.stream.content.length ≤ w.stream.consumed
    · have hout : (w.stream.content.drop w.stream.consumed).take
          w.max_buffer_size.toNat = [] := by
        rw [List.drop_eq_nil_of_le hend]
        exact List.take_nil
      refine ⟨w1, ?_, hf1, hc1, hm1, ?_⟩
      · simp [drainLoop, hred, hout]
      · rw [hcons1, hc1, hout]
        simp
        omega
    · push_neg at hend
      have hlen : ((w.stream.content.drop w.stream.consumed).take
          w.max_buffer_size.toNat).length =
          min w.max_buffer_size.toNat (w.stream.content.length - w.stream.consumed) := by
        simp [List.length_take, List.length_drop]
      have hne : (w.stream.content.drop w.stream.consumed).take
          w.max_buffer_size.toNat ≠ [] := by
        intro hcontra
        have := congrArg List.length hcontra
        rw [hlen] at this
        simp at this
        omega
      have hb : w1.stream.content.length - w1.stream.consumed < fuel := by
        rw [hc1, hcons1, hlen]
        omega
      obtain ⟨w2, hdr, hf2, hc2, hm2, hfull⟩ :=
        ih w1 hf1 (by rw [hm1]; exact hm) hb
      refine ⟨w2, ?_, hf2, hc2.trans hc1, hm2.trans hm1, hfull⟩
      simp only [drainLoop, hred]
      rw [if_neg hne]
      exact hdr

/-- C4: on a forward-mode state over a stream of total length `L`, a
relative-to-end `seek(offset)` with `0 ≤ offset ≤ max_buffer_size` drains
the underlying stream to exhaustion and leaves `tell() = L - offset`; in
particular `seek(0, SEEK_END)` positions at the true end of stream. -/
theorem C4_seek_end_drains_to_length (w : Wrapper) (offset : Int)
    (hf : Forward w) (hm : 1 ≤ w.max_buffer_size)
    (_h0 : 0 ≤ offset) (hoff : offset ≤ w.max_buffer_size) :
    (w.seek offset SEEK_END).tellAfter =
      some ((w.stream.content.length : Int) - offset) ∧
    (w.seek offset SEEK_END).consumedAfter = some w.stream.content.length := by
  obtain ⟨w2, hdr, hf2, hc2, hm2, hfull⟩ :=
    drain_forward (w.stream.content.length + (w.buffer_end - w.position).toNat + 2)
      w hf hm (by omega)
  have hp2 : w2.position = (w.stream.content.length : Int) := by
    rw [hf2.1, hf2.2.1, hfull, hc2]
  unfold Wrapper.seek
  rw [if_neg (by decide : ¬ SEEK_END = SEEK_SET), if_pos rfl,
    if_neg (not_lt.mpr hoff), hdr]
  constructor
  · simp [SeekResult.tellAfter, Wrapper.tell, hp2]
  · simp [SeekResult.consumedAfter, hfull, hc2]

theorem C4_witness :
    ((Wrapper.init ⟨[48, 49], 0⟩ 4).seek 1 SEEK_END).tellAfter = some 1 ∧
    ((Wrapper.init ⟨[48, 49], 0⟩ 4).seek 1 SEEK_END).consumedAfter = some 2 := by
  have h := C4_seek_end_drains_to_length (Wrapper.init ⟨[48, 49], 0⟩ 4) 1
    ⟨rfl, rfl, rfl, Nat.zero_le _⟩ (by decide) (by decide) (by decide)
  simpa using h

/-- Once the scan cursor is at or before the running chunk boundary, every
remaining chunk satisfies the loop's `if`, and the cursor never passes the
end of the scanned chunks. -/
theorem scanBuffer_pos_le : ∀ (chunks : List (List Nat)) (st st' : ScanState),
    st.position ≤ st.position_in_buffer → scanBuffer chunks st = some st' →
    st'.position ≤ st.position_in_buffer + sumLens chunks := by
  intro chunks
  induction chunks with
  | nil =>
    intro st st' hle h
    simp only [scanBuffer] at h
    injection h with h2
    subst h2
    rw [sumLens_nil]
    omega
  | cons data rest ih =>
    intro st st' hle h
    simp only [scanBuffer] at h
    have hcond : st.position ≤ st.position_in_buffer + (data.length : Int) := by
      have hnn : (0 : Int) ≤ (data.length : Int) := Int.natCast_nonneg _
      omega
    rw [if_pos hcond] at h
    dsimp only at h
    have hrs : min ((data.length : Int) - (st.position - st.position_in_buffer))
        st.bytes_remaining ≤
        (data.length : Int) - (st.position - st.position_in_buffer) :=
      min_le_left _ _
    have hstep := ih _ st' (by dsimp only; omega) h
    dsimp only at hstep
    rw [sumLens_cons]
    omega

/-- Any successful scan that started with `read_size` unassigned leaves the
cursor at or below `max start-cursor (window start + scanned length)`. -/
theorem scanBuffer_none_bound : ∀ (chunks : List (List Nat)) (acc : List Nat)
    (rem pib pos : Int) (st' : ScanState),
    scanBuffer chunks ⟨acc, rem, pib, pos, none⟩ = some st' →
    st'.position ≤ max pos (pib + sumLens chunks) := by
  intro chunks acc rem pib pos st' h
  cases chunks with
  | nil =>
    simp only [scanBuffer] at h
    injection h with h2
    subst h2
    exact le_max_left _ _
  | cons data rest =>
    simp only [scanBuffer] at h
    by_cases hcond : pos ≤ pib + (data.length : Int)
    · rw [if_pos hcond] at h
      dsimp only at h
      have hrs : min ((data.length : Int) - (pos - pib)) rem ≤
          (data.length : Int) - (pos - pib) := min_le_left _ _
      have hstep := scanBuffer_pos_le rest _ st' (by dsimp only; omega) h
      dsimp only at hstep
      rw [sumLens_cons]
      refine le_trans hstep (le_trans (by omega) (le_max_right _ _))
    · rw [if_neg hcond] at h
      exact Option.noConfusion h

/-- When the buffered chunks account exactly for the window and the cursor
is within it, a successful `_read_from_buffer` leaves the cursor within the
window. -/
theorem readFromBuffer_pos_le {w : Wrapper} {a : Int} {d : List Nat}
    {w1 : Wrapper}
    (hsum : sumLens w.buffer = w.buffer_end - w.buffer_start)
    (hple : w.position ≤ w.buffer_end)
    (h : readFromBuffer w a = some (d, w1)) :
    w1.position ≤ w.buffer_end := by
  unfold readFromBuffer at h
  split at h
  · split at h
    · exact Option.noConfusion h
    · rename_i st hscan
      injection h with h2
      injection h2 with hd hw
      subst hw
      have hb := scanBuffer_none_bound w.buffer [] a
        w.buffer_start w.position st hscan
      have hmax : max w.position (w.buffer_start + sumLens w.buffer) ≤
          w.buffer_end := max_le hple (by omega)
      exact le_trans hb hmax
  · injection h with h2
    injection h2 with hd hw
    subst hw
    exact hple

/-- The eviction loop, when it exits normally, keeps the exact accounting
between chunk lengths and window bounds. -/
theorem evictLoop_some_sum : ∀ (buf : List (List Nat)) (bs be m : Int)
    (buf2 : List (List Nat)) (bs2 : Int),
    sumLens buf = be - bs → evictLoop buf bs be m = some (buf2, bs2) →
    sumLens buf2 = be - bs2 := by
  intro buf
  induction buf with
  | nil =>
    intro bs be m buf2 bs2 hsum h
    simp only [evictLoop] at h
    split at h
    · exact Option.noConfusion h
    · injection h with h2
      injection h2 with hbuf hbs
      subst hbuf
      subst hbs
      exact hsum
  | cons oldest rest ih =>
    intro bs be m buf2 bs2 hsum h
    rw [sumLens_cons] at hsum
    simp only [evictLoop] at h
    split at h
    · next hc =>
      split at h
      · next hpush =>
        injection h with h2
        injection h2 with hbuf hbs
        subst hbuf
        subst hbs
        rw [sumLens_cons,
          pySlice_last_length oldest _ hpush.2 (by omega)]
        omega
      · exact ih _ _ _ _ _ (by omega) h
    · injection h with h2
      injection h2 with hbuf hbs
      subst hbuf
      subst hbs
      rw [sumLens_cons]
      omega

/-- `_store_data`, when it completes, keeps the cursor, extends the window
end by the appended length, and keeps the exact chunk accounting. -/
theorem storeData_sum {w : Wrapper} {d : List Nat} {w3 : Wrapper}
    (h : storeData w d = some w3)
    (hsum : sumLens w.buffer = w.buffer_end - w.buffer_start) :
    w3.position = w.position ∧
    w3.buffer_end = w.buffer_end + (d.length : Int) ∧
    sumLens w3.buffer = w3.buffer_end - w3.buffer_start := by
  simp only [storeData] at h
  split at h
  · next hd =>
    subst hd
    injection h with h2
    subst h2
    exact ⟨rfl, by simp, hsum⟩
  · next hd =>
    split at h
    · exact Option.noConfusion h
    · next p heq =>
      injection h with h2
      subst h2
      have hsum2 : sumLens (w.buffer ++ [d]) =
          (w.buffer_end + (d.length : Int)) - w.buffer_start := by
        rw [sumLens_append, sumLens_cons, sumLens_nil]
        omega
      exact ⟨rfl, rfl, evictLoop_some_sum _ _ _ _ p.1 p.2 hsum2 heq⟩

/-- A completed `read` keeps the cursor within the window and keeps the
exact chunk accounting. -/
theorem read_ok_pos {w : Wrapper} {s : Int} {d : List Nat} {w' : Wrapper}
    (h : w.read s = ReadResult.ok d w')
    (hsum : sumLens w.buffer = w.buffer_end - w.buffer_start)
    (hple : w.position ≤ w.buffer_end) :
    w'.position ≤ w'.buffer_end ∧
    sumLens w'.buffer = w'.buffer_end - w'.buffer_start := by
  simp only [Wrapper.read] at h
  cases hscan : readFromBuffer w (if s < 0 then w.max_buffer_size else s) with
  | none =>
    rw [hscan] at h
    exact ReadResult.noConfusion h
  | some dw =>
    obtain ⟨data, w1⟩ := dw
    obtain ⟨hs1, hb1, hm1, hbs1, hbe1⟩ := readFromBuffer_frame hscan
    have hp1 : w1.position ≤ w1.buffer_end := by
      rw [hbe1]
      exact readFromBuffer_pos_le hsum hple hscan
    have hsum1 : sumLens w1.buffer = w1.buffer_end - w1.buffer_start := by
      rw [hb1, hbs1, hbe1]
      exact hsum
    rw [hscan] at h
    dsimp only at h
    split at h
    · exact ReadResult.noConfusion h
    · rename_i w3 heq
      injection h with hd hw
      subst hw
      split at heq
      · obtain ⟨hpos3, hbe3, hsum3⟩ := storeData_sum heq hsum1
        dsimp only at hpos3 hbe3
        exact ⟨by omega, hsum3⟩
      · split at heq
        · obtain ⟨hpos3, hbe3, hsum3⟩ := storeData_sum heq hsum1
          dsimp only at hpos3 hbe3
          exact ⟨by omega, hsum3⟩
        · obtain ⟨hpos3, hbe3, hsum3⟩ := storeData_sum heq hsum1
          dsimp only at hpos3 hbe3
          exact ⟨by omega, hsum3⟩

/-- The drain loop preserves cursor-within-window and chunk accounting. -/
theorem drainLoop_pos : ∀ (fuel : Nat) (w w2 : Wrapper),
    drainLoop fuel w = some w2 →
    sumLens w.buffer = w.buffer_end - w.buffer_start →
    w.position ≤ w.buffer_end →
    w2.position ≤ w2.buffer_end ∧
    sumLens w2.buffer = w2.buffer_end - w2.buffer_start := by
  intro fuel
  induction fuel with
  | zero =>
    intro w w2 h
    exact Option.noConfusion h
  | succ fuel ih =>
    intro w w2 h hsum hple
    simp only [drainLoop] at h
    cases hr : w.read w.max_buffer_size with
    | crash =>
      rw [hr] at h
      exact Option.noConfusion h
    | ok data w1 =>
      rw [hr] at h
      dsimp only at h
      obtain ⟨hp1, hs1⟩ := read_ok_pos hr hsum hple
      by_cases hd : data = []
      · rw [if_pos hd] at h
        injection h with hw
        subst hw
        exact ⟨hp1, hs1⟩
      · rw [if_neg hd] at h
        exact ih w1 w2 h hs1 hp1

/-- A completed `seek` whose relative-to-end offsets are non-negative keeps
the cursor within the window and keeps the chunk accounting. -/
theorem seek_nn_pos {w w' : Wrapper} {offset whence : Int}
    (hnn : whence = SEEK_END → 0 ≤ offset)
    (h : w.seek offset whence = SeekResult.ok w')
    (hsum : sumLens w.buffer = w.buffer_end - w.buffer_start)
    (hple : w.position ≤ w.buffer_end) :
    w'.position ≤ w'.buffer_end ∧
    sumLens w'.buffer = w'.buffer_end - w'.buffer_start := by
  unfold Wrapper.seek at h
  split at h
  · split at h
    · exact SeekResult.noConfusion h
    · next hc =>
      injection h with hw
      subst hw
      rw [not_or] at hc
      exact ⟨not_lt.mp hc.2, hsum⟩
  · split at h
    · next hwh =>
      split at h
      · exact SeekResult.noConfusion h
      · split at h
        · exact SeekResult.noConfusion h
        · next w2 hdr =>
          injection h with hw
          subst hw
          have hoff : 0 ≤ offset := hnn hwh
          obtain ⟨hp2, hs2⟩ := drainLoop_pos _ _ _ hdr hsum hple
          exact ⟨by dsimp only; omega, hs2⟩
    · exact SeekResult.noConfusion h

/-- C7 amended: along every sequence of completed `read`/`seek` operations
from a freshly constructed wrapper in which every relative-to-end seek uses
a non-negative offset, `position ≤ buffer_end` holds after every operation.
(The unamended claim fails: a negative `SEEK_END` offset is accepted and
puts `position` past `buffer_end`, see the counterexample.) -/
theorem C7_amended_position_bounded (stream0 : ByteStream) (msize : Int)
    (w : Wrapper) (hr : ReachesNN (Wrapper.init stream0 msize) w) :
    w.position ≤ w.buffer_end := by
  suffices h : w.position ≤ w.buffer_end ∧
      sumLens w.buffer = w.buffer_end - w.buffer_start from h.1
  induction hr with
  | refl => exact ⟨le_refl _, rfl⟩
  | read hpr hstep ih => exact read_ok_pos hstep ih.2 ih.1
  | seekOk hpr hoffnn hstep ih => exact seek_nn_pos hoffnn hstep ih.2 ih.1
  | seekErr hpr hstep ih =>
    rw [seek_err_eq hstep]
    exact ih

theorem C7_amended_witness : exW3.position ≤ exW3.buffer_end :=
  C7_amended_position_bounded ⟨exContent, 0⟩ 4 exW3
    (@ReachesNN.seekOk (Wrapper.init ⟨exContent, 0⟩ 4) exW2 exW3 3 0
      (@ReachesNN.read (Wrapper.init ⟨exContent, 0⟩ 4) exW1 exW2 2 [52, 53]
        (@ReachesNN.read (Wrapper.init ⟨exContent, 0⟩ 4)
          (Wrapper.init ⟨exContent, 0⟩ 4) exW1 4 [48, 49, 50, 51]
          ReachesNN.refl (by decide))
        (by decide))
      (by decide) (by decide))

/-- C8: with `max_buffer_size = 4` over `b"0123456789"`, `read(4)` returns
`b"0123"` with `tell() = 4`; `read(2)` returns `b"45"` with `tell() = 6` and
the buffer holding exactly `b"2345"` starting at offset 2; `seek(3)`
succeeds with `tell() = 3`; the next `read(2)` returns `b"34"` served from
the buffer (the underlying stream is untouched) with `tell() = 5`. -/
theorem C8_concrete_scenario :
    (Wrapper.init ⟨exContent, 0⟩ 4).read 4 = ReadResult.ok [48, 49, 50, 51] exW1 ∧
    exW1.tell = 4 ∧
    exW1.read 2 = ReadResult.ok [52, 53] exW2 ∧
    exW2.tell = 6 ∧
    exW2.buffer.flatten = [50, 51, 52, 53] ∧
    exW2.buffer_start = 2 ∧
    exW2.seek 3 SEEK_SET = SeekResult.ok exW3 ∧
    exW3.tell = 3 ∧
    exW3.read 2 = ReadResult.ok [51, 52] exW4 ∧
    exW4.tell = 5 ∧
    exW4.stream = exW3.stream := by
  decide

/-- C1 (code bug): from a fresh wrapper over `b"0123"` with max 4, two
`read(2)` calls leave chunks `[b"01", b"23"]` with window `[0, 4]`;
`seek(3)` succeeds, but the immediate replay `read(1)` (of the
`buffer_end - offset = 1` retained bytes) crashes with Python's
`UnboundLocalError`: the first buffered chunk ends strictly before the
cursor, so the loop body's `if` never assigns `read_size` before
`self._position += read_size` executes. -/
theorem C1_replay_read_crashes :
    (Wrapper.init ⟨cContent, 0⟩ 4).read 2 =
      ReadResult.ok [48, 49] ⟨⟨cContent, 2⟩, [[48, 49]], 4, 0, 2, 2⟩ ∧
    (⟨⟨cContent, 2⟩, [[48, 49]], 4, 0, 2, 2⟩ : Wrapper).read 2 =
      ReadResult.ok [50, 51] cW2 ∧
    cW2.seek 3 SEEK_SET = SeekResult.ok cW3 ∧
    cW2.buffer_start ≤ 3 ∧ (3 : Int) ≤ cW2.buffer_end ∧
    cW3.read 1 = ReadResult.crash := by
  decide

/-- C7 counterexample: `seek(-1, SEEK_END)` on a fresh wrapper over the
empty stream is accepted by the interface (no error is raised), completes,
and leaves `position = 1 > 0 = buffer_end`. -/
theorem C7_counterexample_negative_end_seek :
    (Wrapper.init ⟨[], 0⟩ 4).seek (-1) SEEK_END = SeekResult.ok c7W ∧
    c7W.buffer_end < c7W.position := by
  decide

/-- C5: an absolute seek to an offset outside `[buffer_start, buffer_end]`
raises the window-exceeded error and leaves the wrapper (position, window
bounds, buffered chunks, stream) unchanged. -/
theorem C5_seek_outside_window_fails_unchanged (w : Wrapper) (offset : Int)
    (h : offset < w.buffer_start ∨ w.buffer_end < offset) :
    w.seek offset SEEK_SET = SeekResult.err SeekError.bufferWindowExceeded w := by
  unfold Wrapper.seek
  rw [if_pos rfl, if_pos h]

theorem C5_witness :
    ((5 : Int) < (Wrapper.init ⟨[], 0⟩ 4).buffer_start ∨
      (Wrapper.init ⟨[], 0⟩ 4).buffer_end < 5) ∧
    (Wrapper.init ⟨[], 0⟩ 4).seek 5 SEEK_SET =
      SeekResult.err SeekError.bufferWindowExceeded (Wrapper.init ⟨[], 0⟩ 4) :=
  ⟨Or.inr (by decide),
    C5_seek_outside_window_fails_unchanged (Wrapper.init ⟨[], 0⟩ 4) 5 (Or.inr (by decide))⟩

/-- C6: a relative-to-end seek whose offset exceeds `max_buffer_size`
raises the out-of-range error before the drain loop runs, so no read is
issued on the underlying stream and the wrapper (position, window bounds,
buffered chunks, stream) is unchanged. -/
theorem C6_seek_end_offset_too_large_fails_unchanged (w : Wrapper) (offset : Int)
    (h : w.max_buffer_size < offset) :
    w.seek offset SEEK_END = SeekResult.err SeekError.endOffsetTooLarge w := by
  unfold Wrapper.seek
  rw [if_neg (by decide : ¬ SEEK_END = SEEK_SET), if_pos rfl, if_pos h]

/-- C9: a `read(size)` with `size ≥ 0` whose buffer pass already delivered
all `size` requested bytes (`bytes_remaining = 0` after the pass) issues no
read on the underlying stream: the call returns the buffered bytes and the
stream state is unchanged. -/
theorem C9_full_buffer_read_leaves_stream (w : Wrapper) (size : Int)
    (data : List Nat) (w1 : Wrapper) (h0 : 0 ≤ size)
    (hscan : readFromBuffer w size = some (data, w1))
    (hall : (data.length : Int) = size) :
    w.read size = ReadResult.ok data w1 ∧ w1.stream = w.stream := by
  have hneg : ¬ size < 0 := not_lt.mpr h0
  have hframe := readFromBuffer_frame hscan
  refine ⟨?_, hframe.1⟩
  unfold Wrapper.read
  simp only [if_neg hneg, hscan]
  rw [hall, sub_self]
  simp only [ne_eq, not_true_eq_false, if_false, ite_false]
  rw [show (([] : List Nat).length : Int) = 0 from rfl, add_zero]
  show (match storeData w1 [] with
    | none => ReadResult.crash
    | some w3 => ReadResult.ok (data ++ []) w3) = ReadResult.ok data w1
  rw [show storeData w1 [] = some w1 from rfl, List.append_nil]

theorem C9_witness :
    (0 : Int) ≤ 2 ∧ readFromBuffer exW3 2 = some ([51, 52], exW4) ∧
    (([51, 52] : List Nat).length : Int) = 2 ∧
    (exW3.read 2 = ReadResult.ok [51, 52] exW4 ∧ exW4.stream = exW3.stream) :=
  ⟨by decide, by decide, by decide,
    C9_full_buffer_read_leaves_stream exW3 2 [51, 52] exW4 (by decide) (by decide) (by decide)⟩

/-- C10: when no backward seek is active (`position = buffer_end`) and the
underlying stream is exhausted, `read(size)` for any size returns the empty
byte string and the whole wrapper state — position, window bounds, chunks
and stream — is exactly unchanged, so repeated end-of-stream reads are
no-ops. -/
theorem C10_read_at_eof_is_noop (w : Wrapper) (size : Int)
    (hpos : w.position = w.buffer_end)
    (hexh : w.stream.content.length ≤ w.stream.consumed) :
    w.read size = ReadResult.ok [] w := by
  have hdrop : w.stream.content.drop w.stream.consumed = [] :=
    List.drop_eq_nil_of_le hexh
  have hrfb : ∀ a : Int, readFromBuffer w a = some ([], w) := by
    intro a
    unfold readFromBuffer
    rw [if_neg (by rw [hpos]; exact lt_irrefl _)]
  have hread : ∀ n : Int, w.stream.read n = ([], w.stream) := by
    intro n
    unfold ByteStream.read
    rw [hdrop]
    simp only [List.take_nil, if_pos, ite_self, List.length_nil, Nat.add_zero]
  unfold Wrapper.read
  simp only [hrfb, hread, List.length_nil, Nat.cast_zero, add_zero, sub_zero,
    List.append_nil, ite_self]
  rfl

theorem C10_witness :
    c10W.position = c10W.buffer_end ∧
    c10W.stream.content.length ≤ c10W.stream.consumed ∧
    c10W.read 5 = ReadResult.ok [] c10W :=
  ⟨by decide, by decide, C10_read_at_eof_is_noop c10W 5 (by decide) (by decide)⟩

theorem C6_witness :
    (Wrapper.init ⟨exContent, 0⟩ 4).max_buffer_size < 5 ∧
    (Wrapper.init ⟨exContent, 0⟩ 4).seek 5 SEEK_END =
      SeekResult.err SeekError.endOffsetTooLarge (Wrapper.init ⟨exContent, 0⟩ 4) :=
  ⟨by decide,
    C6_seek_end_offset_too_large_fails_unchanged (Wrapper.init ⟨exContent, 0⟩ 4) 5 (by decide)⟩

end StreamingUpload
